import Mathlib

/-!
Shallow embedding of `playground/dtx_player.py`: the DTX chart parser
(`Dtx.parse`), its timing resolver, the encoding resolver, and the parts of
`Player` (clock update, seeking, sound loading, note dispatch) that the
verified properties talk about.

Conventions of the embedding:
* Python floats are modelled as exact rationals (`ℚ`).
* Python strings are Lean `String`s; the string operations used by the source
  (`strip`, `split`, `startswith`, `upper`, `replace`, slicing) are defined
  here over the underlying character lists so that every definition is
  executable by kernel reduction.
* Python dicts are association lists with insert-or-overwrite semantics
  (`dinsert`); lookup is first-match, as in a dict.
* Python's `list.sort` (a stable sort) is modelled by a stable insertion
  sort (`stableSort`); for a transitive total comparison this computes the
  same list as any stable sort, in particular Timsort.
-/

namespace DtxPlayer

/-- Insert-or-overwrite for an association list, mirroring Python dict
assignment `m[k] = v`: an existing binding for `k` keeps its position but
gets the new value; a new key is appended at the end. -/
def dinsert {κ ν : Type} [DecidableEq κ] : List (κ × ν) → κ → ν → List (κ × ν)
  | [], k, v => [(k, v)]
  | (k', v') :: rest, k, v =>
    if k' = k then (k, v) :: rest else (k', v') :: dinsert rest k v

/-- Insert `x` into `l` after every element `y` with `le y x`.  Used to model
Python's stable sort: an element parsed later is placed after all
earlier elements that compare less-or-equal. -/
def sinsert {α : Type} (le : α → α → Bool) (x : α) : List α → List α
  | [] => [x]
  | y :: ys => if le y x then y :: sinsert le x ys else x :: y :: ys

/-- Stable sort by `le`, modelling Python's `list.sort` (Timsort is stable;
for a transitive, total `le` the stable sorted list is unique, so this
insertion sort computes the same list). -/
def stableSort {α : Type} (le : α → α → Bool) (l : List α) : List α :=
  l.foldl (fun acc x => sinsert le x acc) []

/-- `str.strip()` on a character list: drop whitespace on both ends. -/
def trimList (cs : List Char) : List Char :=
  ((cs.dropWhile Char.isWhitespace).reverse.dropWhile Char.isWhitespace).reverse

/-- Split at the first occurrence of `c`, mirroring Python
`s.split(c, 1)`: `none` when `c` does not occur. -/
def breakAtChar (c : Char) : List Char → Option (List Char × List Char)
  | [] => none
  | x :: xs =>
    if x = c then some ([], xs)
    else
      match breakAtChar c xs with
      | some (l, r) => some (x :: l, r)
      | none => none

/-- `s.split(";")[0]`: everything before the first `;` (the whole string if
there is none). -/
def takeUntilChar (c : Char) (cs : List Char) : List Char :=
  cs.takeWhile (fun x => x ≠ c)

/-- `[value[i:i+2] for i in range(0, len(value), 2)]`: consecutive 2-character
chunks, the last one possibly a single character. -/
def chunks2 : List Char → List (List Char)
  | [] => []
  | [c] => [[c]]
  | c₁ :: c₂ :: rest => [c₁, c₂] :: chunks2 rest

/-- Decimal digit run to a natural number (the digits are validated by the
callers before this is applied, as in the source's regex guard). -/
def digitsVal (cs : List Char) : Nat :=
  cs.foldl (fun a c => a * 10 + (c.toNat - 48)) 0

/-- Modelled from the source's use of Python `float(value)` on chart fields:
parses an optional sign, an integer part and an optional fractional part.
Returns `none` where `float` raises `ValueError` (the source catches it and
leaves the field unchanged). Exponent forms do not occur in chart files and
are not modelled. -/
def parseFloat (s : String) : Option ℚ :=
  let signed : ℚ × List Char :=
    match s.toList with
    | '-' :: rest => (-1, rest)
    | '+' :: rest => (1, rest)
    | cs => (1, cs)
  let sgn := signed.1
  let cs := signed.2
  let intPart := cs.takeWhile Char.isDigit
  let rest := cs.dropWhile Char.isDigit
  match rest with
  | [] => if intPart.isEmpty then none else some (sgn * digitsVal intPart)
  | '.' :: frac =>
    if frac.all Char.isDigit && !(intPart.isEmpty && frac.isEmpty) then
      some (sgn * ((digitsVal intPart : ℚ) + (digitsVal frac : ℚ) / (10 ^ frac.length)))
    else none
  | _ => none

/-- Modelled from the source's use of Python `int(value)` on `#VOLUME`
fields: optional sign followed by decimal digits. -/
def parseIntPy (s : String) : Option Int :=
  match s.toList with
  | '-' :: rest =>
    if !rest.isEmpty && rest.all Char.isDigit then some (-(digitsVal rest : Int)) else none
  | '+' :: rest =>
    if !rest.isEmpty && rest.all Char.isDigit then some ((digitsVal rest : Int)) else none
  | cs =>
    if !cs.isEmpty && cs.all Char.isDigit then some ((digitsVal cs : Int)) else none

/-- One hexadecimal digit, as accepted by Python `int(_, 16)`. -/
def hexDigitVal (c : Char) : Option Nat :=
  if c.isDigit then some (c.toNat - 48)
  else if 'A' ≤ c && c ≤ 'F' then some (c.toNat - 55)
  else if 'a' ≤ c && c ≤ 'f' then some (c.toNat - 87)
  else none

/-- Modelled from the source's `int(value, 16)` on direct-tempo tokens: a
non-empty run of hexadecimal digits; `none` where `int` raises (the source
catches it and leaves the tempo unchanged). -/
def parseHexNat (s : String) : Option Nat :=
  match s.toList with
  | [] => none
  | cs =>
    cs.foldl
      (fun acc c =>
        match acc, hexDigitVal c with
        | some a, some d => some (a * 16 + d)
        | _, _ => none)
      (some 0)

/-- Modelled from the source's `os.path.join(self.directory, value)` for the
relative paths that occur in chart files: the directory, a separator, and
the file name. -/
def joinPath (d v : String) : String :=
  if d = "" then v else d ++ "/" ++ v

/-- `value.replace("\\", "/")`: normalize Windows path separators. -/
def normSlash (cs : List Char) : List Char :=
  cs.map (fun c => if c = '\\' then '/' else c)

/-- `Dtx.NON_NOTE_CHANNELS` verbatim: channels that never produce raw
events (visual layers, system channels, autoplay sound-effect layers). -/
def nonNoteChannels : List String :=
  ["04", "07", "54", "5A", "C4", "C7",
   "55", "56", "57", "58", "59", "60",
   "D5", "D6", "D7", "D8", "D9", "DA", "DB", "DC", "DD", "DE", "DF",
   "50", "51", "C1", "C2",
   "61", "62", "63", "64", "65", "66", "67", "68", "69",
   "70", "71", "72", "73", "74", "75", "76", "77", "78", "79",
   "80", "81", "82", "83", "84", "85", "86", "87", "88", "89",
   "90", "91", "92"]

/-- The raw (un-timed) events collected during the first pass: the dicts
appended to `raw_events` in `Dtx.parse`. -/
structure RawEvent where
  bar : Nat
  channel : String
  pos : Nat
  total : Nat
  val : String
deriving DecidableEq, Repr

/-- The mutable fields of the `Dtx` object populated by the first pass. -/
structure DtxState where
  title : String
  artist : String
  bpm : ℚ
  wav_files : List (String × String)
  bpm_changes : List (String × ℚ)
  bar_length_changes : List (Nat × ℚ)
  wav_volumes : List (String × Int)
  bgm_wav_id : Option String
  raw_events : List RawEvent
deriving Repr

/-- The `Dtx.__init__` defaults. -/
def initDtxState : DtxState :=
  { title := "Untitled", artist := "Unknown", bpm := 120,
    wav_files := [], bpm_changes := [], bar_length_changes := [],
    wav_volumes := [], bgm_wav_id := none, raw_events := [] }

/-- `Dtx._split_line` on the part of the line after `#`: split at the first
colon if present, else at the first space, else the whole line is the key and
the value is empty. -/
def splitLine (cs : List Char) : List Char × List Char :=
  match breakAtChar ':' cs with
  | some (k, v) => (k, v)
  | none =>
    match breakAtChar ' ' cs with
    | some (k, v) => (k, v)
    | none => (cs, [])

/-- `^\d{3}[0-9A-Z]{2}$`: three digits then two characters that are digits
or uppercase letters. -/
def isEventKey (key : List Char) : Bool :=
  key.length = 5 && (key.take 3).all Char.isDigit
    && (key.drop 3).all (fun c => c.isDigit || c.isUpper)

/-- The events contributed by one grid line: each non-`"00"` 2-character
token becomes a `RawEvent` carrying its slot index and the grid's total slot
count. -/
def gridEvents (barNum : Nat) (channel : String) (notes : List (List Char)) :
    List RawEvent :=
  notes.enum.filterMap fun p =>
    if String.mk p.2 ≠ "00" then
      some { bar := barNum, channel := channel, pos := p.1,
             total := notes.length, val := String.mk p.2 }
    else none

/-- The `#BPM` branch body: `self.bpm = float(value)` guarded by the
source's `try`/`except` (a malformed value leaves the field unchanged). -/
def withBpm (st : DtxState) : Option ℚ → DtxState
  | some b => { st with bpm := b }
  | none => st

/-- The `#BPMxx` branch body: `self.bpm_changes[key[3:]] = float(value)`
guarded by `try`/`except`. -/
def withBpmChange (st : DtxState) (id : String) : Option ℚ → DtxState
  | some b => { st with bpm_changes := dinsert st.bpm_changes id b }
  | none => st

/-- The `#VOLUMExx` branch body: `self.wav_volumes[wav_id] = int(value)`
guarded by `try`/`except`. -/
def withVolume (st : DtxState) (id : String) : Option Int → DtxState
  | some n => { st with wav_volumes := dinsert st.wav_volumes id n }
  | none => st

/-- The bar-length channel body: `self.bar_length_changes[bar_num] =
float(value)` guarded by `try`/`except`. -/
def withBarLength (st : DtxState) (bar : Nat) : Option ℚ → DtxState
  | some m => { st with bar_length_changes := dinsert st.bar_length_changes bar m }
  | none => st

/-- The per-line dispatch of `Dtx.parse`'s first pass, given the already
normalized `key` (stripped, uppercased) and `value` (stripped, comment
removed). The branch structure and order mirror the source's `elif` chain. -/
def dispatchKey (dir : String) (st : DtxState) (key value : List Char) :
    DtxState :=
  if key = "TITLE".toList then { st with title := String.mk value }
  else if key = "ARTIST".toList then { st with artist := String.mk value }
  else if key = "BPM".toList && !value.isEmpty then
    withBpm st (parseFloat (String.mk value))
  else if "WAV".toList.isPrefixOf key && !value.isEmpty then
    { st with wav_files := dinsert st.wav_files (String.mk (key.drop 3)) (joinPath dir (String.mk (normSlash value))) }
  else if key = "BGMWAV".toList && !value.isEmpty then
    { st with bgm_wav_id := some (String.mk value) }
  else if "BPM".toList.isPrefixOf key && key.length > 3 && !value.isEmpty then
    withBpmChange st (String.mk (key.drop 3)) (parseFloat (String.mk value))
  else if "VOLUME".toList.isPrefixOf key && key.length > 6 && !value.isEmpty then
    withVolume st (String.mk (key.drop 6)) (parseIntPy (String.mk value))
  else if isEventKey key then
    if String.mk (key.drop 3) = "02" then
      if !value.isEmpty then
        withBarLength st (digitsVal (key.take 3)) (parseFloat (String.mk value))
      else st
    else if nonNoteChannels.contains (String.mk (key.drop 3)) then st
    else if value.isEmpty then st
    else if (chunks2 value).isEmpty then st
    else
      { st with raw_events := st.raw_events ++
          gridEvents (digitsVal (key.take 3)) (String.mk (key.drop 3)) (chunks2 value) }
  else st

/-- One iteration of the first-pass line loop of `Dtx.parse`: strip the
line, skip blanks and non-`#` lines, split into key and value, normalize
both, and dispatch. -/
def processLine (dir : String) (st : DtxState) (rawLine : String) : DtxState :=
  match trimList rawLine.toList with
  | [] => st
  | c :: rest =>
    if c = '#' then
      dispatchKey dir st ((trimList (splitLine rest).1).map Char.toUpper)
        (trimList (takeUntilChar ';' (trimList (splitLine rest).2)))
    else st

/-- The whole first pass of `Dtx.parse` over the decoded lines. -/
def dtxFirstPass (dir : String) (lines : List String) : DtxState :=
  lines.foldl (processLine dir) initDtxState

/-- The post-pass default: if no `#BGMWAV` directive was seen and a sample
with identifier `"01"` exists, it becomes the background track. -/
def finalBgmWavId (st : DtxState) : Option String :=
  match st.bgm_wav_id with
  | some b => some b
  | none => if (st.wav_files.lookup "01").isSome then some "01" else none

/-- The cumulative bar-start-beat table: bar 0 starts at beat 0 and each
bar contributes `4.0 × multiplier` beats (multiplier 1.0 when absent). -/
def barStartBeats (blc : List (Nat × ℚ)) : Nat → ℚ
  | 0 => 0
  | n + 1 => barStartBeats blc n + 4 * ((blc.lookup n).getD 1)

/-- An event's precise global beat: start beat of its bar plus its fractional
position within the bar scaled by the bar's beat span. -/
def globalBeat (blc : List (Nat × ℚ)) (e : RawEvent) : ℚ :=
  barStartBeats blc e.bar
    + ((e.pos : ℚ) / (e.total : ℚ)) * (4 * ((blc.lookup e.bar).getD 1))

/-- A raw event annotated with its global beat, the shape consumed by the
timing walk. -/
structure BEvent where
  beat : ℚ
  channel : String
  val : String
deriving DecidableEq, Repr

/-- Annotate every raw event with its global beat. -/
def annotate (blc : List (Nat × ℚ)) (es : List RawEvent) : List BEvent :=
  es.map fun e => { beat := globalBeat blc e, channel := e.channel, val := e.val }

/-- `raw_events.sort(key=lambda x: x["global_beat"])`: stable sort by
ascending global beat. -/
def sortByBeat (es : List BEvent) : List BEvent :=
  stableSort (fun a b => decide (a.beat ≤ b.beat)) es

/-- The tempo evolution of one walk step: channel `"03"` reinterprets its
token as a hexadecimal tempo (unchanged on parse failure), channel `"08"`
looks its token up in the tempo table (unchanged when absent), every other
channel leaves the tempo alone. -/
def walkBpmStep (tbl : List (String × ℚ)) (bpm : ℚ) (e : BEvent) : ℚ :=
  if e.channel = "03" then
    match parseHexNat e.val with
    | some n => (n : ℚ)
    | none => bpm
  else if e.channel = "08" then
    match tbl.lookup e.val with
    | some b => b
    | none => bpm
  else bpm

/-- The timing walk of `Dtx.parse`'s second pass. State: current tempo,
current time in seconds, beat of the previous event. Each event first
advances time by `delta_beats * (60 / current_bpm)` and is then classified:
`"01"` (background marker) and the tempo channels `"03"`/`"08"` are not
emitted; every other channel emits `(time_ms, channel, value)`. The
`bgm_start_time_ms` bookkeeping of the `"01"` branch only records a time
and never feeds back into the walk, so it is not part of this state. -/
def walk (tbl : List (String × ℚ)) : ℚ → ℚ → ℚ → List BEvent → List (ℚ × String × String)
  | _, _, _, [] => []
  | bpm, t, lastBeat, e :: es =>
    let te := t + (e.beat - lastBeat) * (60 / bpm)
    if e.channel = "01" then
      walk tbl bpm te e.beat es
    else if e.channel = "03" then
      walk tbl
        (match parseHexNat e.val with
         | some n => (n : ℚ)
         | none => bpm) te e.beat es
    else if e.channel = "08" then
      walk tbl
        (match tbl.lookup e.val with
         | some b => b
         | none => bpm) te e.beat es
    else
      (te * 1000, e.channel, e.val) :: walk tbl bpm te e.beat es

/-- The state threading of `walk` alone: final (tempo, time, last beat)
after a list of events. -/
def walkSt (tbl : List (String × ℚ)) : ℚ × ℚ × ℚ → List BEvent → ℚ × ℚ × ℚ
  | s, [] => s
  | (bpm, t, lastBeat), e :: es =>
    walkSt tbl (walkBpmStep tbl bpm e, t + (e.beat - lastBeat) * (60 / bpm), e.beat) es

/-- The time the walk would assign to an event at beat `B` from state `s`. -/
def timeAtBeat (B : ℚ) (s : ℚ × ℚ × ℚ) : ℚ :=
  s.2.1 + (B - s.2.2) * (60 / s.1)

/-- Lexicographic strict comparison of character lists, i.e. Python's `<` on
strings (code-point order). -/
def listCharLt : List Char → List Char → Bool
  | [], [] => false
  | [], _ :: _ => true
  | _ :: _, [] => false
  | a :: as, b :: bs => if a < b then true else if b < a then false else listCharLt as bs

/-- Python's tuple `<` on `(time, channel, wav_id)` triples, as used by
`self.timed_notes.sort()`: earlier component strictly smaller, or equal and
the rest strictly smaller. -/
def noteLt (a b : ℚ × String × String) : Bool :=
  decide (a.1 < b.1) ||
    (decide (a.1 = b.1) &&
      (listCharLt a.2.1.toList b.2.1.toList ||
        (decide (a.2.1 = b.2.1) && listCharLt a.2.2.toList b.2.2.toList)))

/-- The non-strict companion of `noteLt`; Python's stable ascending sort by
`<` coincides with the stable sort by this `≤`. -/
def noteLe (a b : ℚ × String × String) : Bool := !(noteLt b a)

/-- The unsorted timed notes the walk appends, before the final
`self.timed_notes.sort()`. -/
def walkNotesOf (dir : String) (lines : List String) : List (ℚ × String × String) :=
  let st := dtxFirstPass dir lines
  walk st.bpm_changes st.bpm 0 0 (sortByBeat (annotate st.bar_length_changes st.raw_events))

/-- The complete `Dtx.parse` pipeline: first pass, beat annotation, stable
sort by beat, timing walk, final `self.timed_notes.sort()`. -/
def timedNotesOf (dir : String) (lines : List String) : List (ℚ × String × String) :=
  stableSort noteLe (walkNotesOf dir lines)

/-- `sum(1 for line in lines if line.strip().startswith("#"))`: the encoding
resolver's plausibility score. -/
def countCmdLines (lines : List String) : Nat :=
  (lines.filter fun l => "#".toList.isPrefixOf (trimList l.toList)).length

/-- One iteration of the encoding-candidate loop: a candidate that failed to
decode (`none`) is skipped; a decodable candidate replaces the best one
exactly when its command-line count strictly exceeds the maximum so far. -/
def encStep (acc : Option (List String) × Nat) (c : Option (List String)) :
    Option (List String) × Nat :=
  match c with
  | none => acc
  | some ls => if acc.2 < countCmdLines ls then (some ls, countCmdLines ls) else acc

/-- The encoding resolver of `Dtx.parse`: fold the candidate decodings in
order starting from no best content and count 0; the result is `none`
exactly when the source prints its fatal read error and returns. Each list
element is the decode result of one candidate encoding (`none` when that
encoding raised `UnicodeDecodeError`). -/
def resolveEncoding (cands : List (Option (List String))) : Option (List String) :=
  (cands.foldl encStep (none, 0)).1

/-- The clock-mode fields of `Player.play`'s loop that the master-clock
update reads and writes. Tick values are in milliseconds. -/
structure ClockState where
  clock_is_audio_driven : Bool
  start_ticks : ℚ
  time_offset_ms : ℚ
deriving DecidableEq, Repr

/-- The master-clock update at the top of each loop iteration of
`Player.play` (the `Update Master Clock` block): audio-driven and busy uses
the music position plus the offset; otherwise, on the first tick after the
music stops, the clock is demoted and `start_ticks` is re-anchored to
`now - song_duration_ms`, and the current time is computed from the system
timer. Returns the new state and the computed current time. -/
def updateClock (s : ClockState) (nowTicks : ℚ) (musicBusy : Bool)
    (musicPosMs : ℚ) (songDurationMs : ℚ) : ClockState × ℚ :=
  if s.clock_is_audio_driven && musicBusy then
    (s, musicPosMs + s.time_offset_ms)
  else
    let s' :=
      if s.clock_is_audio_driven then
        { s with clock_is_audio_driven := false,
                 start_ticks := nowTicks - songDurationMs }
      else s
    (s', nowTicks - s'.start_ticks)

/-- The seek target search of `Player.play`: the first index whose note time
is at or after the target, or the sequence length when the target is past
the last note (the `for`/`else` loop over `notes_to_play`). -/
def seekIndex (notes : List (ℚ × String × String)) (target : ℚ) : Nat :=
  notes.findIdx fun n => decide (n.1 ≥ target)

/-- How far the dispatch `while` loop advances the cursor through a note
list whose head is the note at the cursor: it consumes every leading note
whose time is `≤ current_time_ms`. -/
def fireCount (now : ℚ) : List (ℚ × String × String) → Nat
  | [] => 0
  | n :: ns => if n.1 ≤ now then fireCount now ns + 1 else 0

/-- The scheduler state a seek touches: the note cursor and the two
voice-tracking tables (modelled abstractly; a seek only ever clears them). -/
structure SchedState where
  note_index : Nat
  active_poly_sounds : List (String × List (Nat × ℚ))
  active_choke_sounds : List (String × Nat)
deriving Repr

/-- The effect of one seek in `Player.play` on the scheduler state:
re-point the cursor to the first note at or after the target and clear both
voice-tracking tables (`pygame.mixer.stop()` plus the two `clear()` calls). -/
def applySeek (notes : List (ℚ × String × String)) (_s : SchedState) (target : ℚ) :
    SchedState :=
  { note_index := seekIndex notes target,
    active_poly_sounds := [], active_choke_sounds := [] }

/-- `Player.load_sounds`: walk the sample table in order; a sample whose
file is missing is skipped, the background-track sample is diverted to
`bgm_path` and never enters the effect-sound table, every other sample is
loaded into `sounds` (loading itself is an external call, modelled as
always succeeding). -/
def load_sounds (wavFiles : List (String × String)) (bgm : Option String)
    (fileOk : String → Bool) : List (String × String) :=
  wavFiles.foldl
    (fun sounds idp =>
      if !fileOk idp.2 then sounds
      else if some idp.1 = bgm then sounds
      else dinsert sounds idp.1 idp.2)
    []

/-- The dispatch loop's firing decision applied to the due notes: a note is
fired only when its sample identifier is a key of the effect-sound table;
otherwise the cursor passes over it silently. Returns the fired notes in
order. -/
def fireDue (sounds : List (String × String)) (now : ℚ) :
    List (ℚ × String × String) → List (ℚ × String × String)
  | [] => []
  | n :: ns =>
    if n.1 ≤ now then
      (if (sounds.lookup n.2.2).isSome then [n] else []) ++ fireDue sounds now ns
    else []

/-- A total file-existence oracle, used to instantiate `load_sounds` at
concrete inputs. -/
def alwaysOk : String → Bool := fun _ => true

theorem mem_sinsert {α : Type} (le : α → α → Bool) (x a : α) (l : List α) :
    a ∈ sinsert le x l ↔ a = x ∨ a ∈ l := by
  induction l with
  | nil => simp [sinsert]
  | cons y ys ih =>
    simp only [sinsert]
    split
    · simp only [List.mem_cons, ih]
      tauto
    · simp [List.mem_cons]

theorem sinsert_perm {α : Type} (le : α → α → Bool) (x : α) (l : List α) :
    (sinsert le x l).Perm (x :: l) := by
  induction l with
  | nil => exact List.Perm.refl _
  | cons y ys ih =>
    simp only [sinsert]
    split
    · exact (ih.cons y).trans (List.Perm.swap x y ys)
    · exact List.Perm.refl _

theorem foldl_sinsert_perm {α : Type} (le : α → α → Bool) :
    ∀ (l acc : List α), (l.foldl (fun a x => sinsert le x a) acc).Perm (acc ++ l) := by
  intro l
  induction l with
  | nil => intro acc; simp
  | cons x xs ih =>
    intro acc
    simp only [List.foldl_cons]
    exact ((ih (sinsert le x acc)).trans
      (((sinsert_perm le x acc).append_right xs).trans List.perm_middle.symm))

theorem stableSort_perm {α : Type} (le : α → α → Bool) (l : List α) :
    (stableSort le l).Perm l := by
  simpa [stableSort] using foldl_sinsert_perm le l []

theorem mem_stableSort {α : Type} (le : α → α → Bool) (l : List α) (a : α) :
    a ∈ stableSort le l ↔ a ∈ l :=
  (stableSort_perm le l).mem_iff

theorem pairwise_sinsert {α : Type} (le : α → α → Bool)
    (htot : ∀ a b, le a b = false → le b a = true)
    (htr : ∀ a b c, le a b = true → le b c = true → le a c = true)
    (x : α) (l : List α) (h : l.Pairwise fun a b => le a b = true) :
    (sinsert le x l).Pairwise fun a b => le a b = true := by
  induction l with
  | nil => simp [sinsert]
  | cons y ys ih =>
    rcases List.pairwise_cons.mp h with ⟨hy, hys⟩
    simp only [sinsert]
    split
    · rename_i hle
      refine List.pairwise_cons.mpr ⟨?_, ih hys⟩
      intro z hz
      rcases (mem_sinsert le x z ys).mp hz with rfl | hzys
      · exact hle
      · exact hy z hzys
    · rename_i hle
      have hxy : le x y = true := htot y x (Bool.not_eq_true _ ▸ hle)
      refine List.pairwise_cons.mpr ⟨?_, h⟩
      intro z hz
      rcases List.mem_cons.mp hz with rfl | hzys
      · exact hxy
      · exact htr x y z hxy (hy z hzys)

theorem pairwise_foldl_sinsert {α : Type} (le : α → α → Bool)
    (htot : ∀ a b, le a b = false → le b a = true)
    (htr : ∀ a b c, le a b = true → le b c = true → le a c = true) :
    ∀ (l acc : List α), (acc.Pairwise fun a b => le a b = true) →
      (l.foldl (fun a x => sinsert le x a) acc).Pairwise fun a b => le a b = true := by
  intro l
  induction l with
  | nil => intro acc hacc; exact hacc
  | cons x xs ih =>
    intro acc hacc
    exact ih (sinsert le x acc) (pairwise_sinsert le htot htr x acc hacc)

theorem pairwise_stableSort {α : Type} (le : α → α → Bool)
    (htot : ∀ a b, le a b = false → le b a = true)
    (htr : ∀ a b c, le a b = true → le b c = true → le a c = true)
    (l : List α) : (stableSort le l).Pairwise fun a b => le a b = true :=
  pairwise_foldl_sinsert le htot htr l [] (List.Pairwise.nil)

theorem listCharLt_asymm : ∀ a b : List Char,
    listCharLt a b = true → listCharLt b a = false
  | [], [] => by simp [listCharLt]
  | [], _ :: _ => by simp [listCharLt]
  | _ :: _, [] => by simp [listCharLt]
  | x :: xs, y :: ys => by
    intro h
    simp only [listCharLt] at h ⊢
    rcases lt_trichotomy x y with hxy | rfl | hxy
    · rw [if_neg (lt_asymm hxy), if_pos hxy]
    · rw [if_neg (lt_irrefl x), if_neg (lt_irrefl x)] at h ⊢
      exact listCharLt_asymm xs ys h
    · rw [if_neg (lt_asymm hxy), if_pos hxy] at h
      simp at h

theorem listCharLt_trans : ∀ a b c : List Char,
    listCharLt a b = true → listCharLt b c = true → listCharLt a c = true
  | [], [], _ => by intro hab _; simp [listCharLt] at hab
  | [], _ :: _, [] => by intro _ hbc; simp [listCharLt] at hbc
  | [], _ :: _, _ :: _ => by intro _ _; simp [listCharLt]
  | _ :: _, [], _ => by intro hab _; simp [listCharLt] at hab
  | _ :: _, _ :: _, [] => by intro _ hbc; simp [listCharLt] at hbc
  | x :: xs, y :: ys, z :: zs => by
    intro hab hbc
    simp only [listCharLt] at hab hbc ⊢
    rcases lt_trichotomy x y with hxy | rfl | hxy
    · rcases lt_trichotomy y z with hyz | rfl | hyz
      · rw [if_pos (lt_trans hxy hyz)]
      · rw [if_pos hxy]
      · rw [if_neg (lt_asymm hyz), if_pos hyz] at hbc
        simp at hbc
    · rcases lt_trichotomy x z with hxz | rfl | hxz
      · rw [if_pos hxz]
      · rw [if_neg (lt_irrefl x), if_neg (lt_irrefl x)] at hab hbc ⊢
        exact listCharLt_trans xs ys zs hab hbc
      · rw [if_neg (lt_asymm hxz), if_pos hxz] at hbc
        simp at hbc
    · rw [if_neg (lt_asymm hxy), if_pos hxy] at hab
      simp at hab

theorem listCharLt_conn : ∀ a b : List Char,
    listCharLt a b = false → listCharLt b a = false → a = b
  | [], [] => by intro _ _; rfl
  | [], _ :: _ => by intro hab _; simp [listCharLt] at hab
  | _ :: _, [] => by intro _ hba; simp [listCharLt] at hba
  | x :: xs, y :: ys => by
    intro hab hba
    simp only [listCharLt] at hab hba
    rcases lt_trichotomy x y with hxy | rfl | hxy
    · rw [if_pos hxy] at hab
      simp at hab
    · rw [if_neg (lt_irrefl x), if_neg (lt_irrefl x)] at hab hba
      rw [listCharLt_conn xs ys hab hba]
    · rw [if_neg (lt_asymm hxy), if_pos hxy] at hba
      simp at hba

theorem bool_clash {x : Bool} (h : x = true) (h' : x = false) : False := by
  rw [h] at h'
  exact Bool.noConfusion h'

theorem string_toList_inj {a b : String} (h : a.toList = b.toList) : a = b := by
  cases a
  cases b
  exact congrArg String.mk h

theorem noteLt_iff (a b : ℚ × String × String) :
    noteLt a b = true ↔
      a.1 < b.1 ∨ (a.1 = b.1 ∧ (listCharLt a.2.1.toList b.2.1.toList = true ∨
        (a.2.1 = b.2.1 ∧ listCharLt a.2.2.toList b.2.2.toList = true))) := by
  simp [noteLt, Bool.or_eq_true, Bool.and_eq_true, decide_eq_true_eq]

theorem noteLt_asymm (a b : ℚ × String × String) (h : noteLt a b = true) :
    noteLt b a = false := by
  rw [← Bool.not_eq_true]
  intro hba
  rcases (noteLt_iff a b).mp h with h1 | ⟨he1, h2⟩
  · rcases (noteLt_iff b a).mp hba with g1 | ⟨ge1, _⟩
    · exact lt_asymm h1 g1
    · exact lt_irrefl _ (ge1 ▸ h1)
  · rcases (noteLt_iff b a).mp hba with g1 | ⟨_, g2⟩
    · exact lt_irrefl _ (he1 ▸ g1)
    · rcases h2 with h2 | ⟨he2, h3⟩ <;> rcases g2 with g2 | ⟨ge2, g3⟩
      · exact bool_clash g2 (listCharLt_asymm _ _ h2)
      · rw [ge2] at h2
        exact bool_clash h2 (listCharLt_asymm _ _ h2)
      · rw [he2] at g2
        exact bool_clash g2 (listCharLt_asymm _ _ g2)
      · exact bool_clash g3 (listCharLt_asymm _ _ h3)

theorem noteLt_trans (a b c : ℚ × String × String)
    (hab : noteLt a b = true) (hbc : noteLt b c = true) : noteLt a c = true := by
  rw [noteLt_iff]
  rcases (noteLt_iff a b).mp hab with h1 | ⟨he1, h2⟩
  · rcases (noteLt_iff b c).mp hbc with g1 | ⟨ge1, _⟩
    · exact Or.inl (lt_trans h1 g1)
    · exact Or.inl (ge1 ▸ h1)
  · rcases (noteLt_iff b c).mp hbc with g1 | ⟨ge1, g2⟩
    · exact Or.inl (he1 ▸ g1)
    · refine Or.inr ⟨he1.trans ge1, ?_⟩
      rcases h2 with h2 | ⟨he2, h3⟩ <;> rcases g2 with g2 | ⟨ge2, g3⟩
      · exact Or.inl (listCharLt_trans _ _ _ h2 g2)
      · exact Or.inl (ge2 ▸ h2)
      · exact Or.inl (he2 ▸ g2)
      · exact Or.inr ⟨he2.trans ge2, listCharLt_trans _ _ _ h3 g3⟩

theorem noteLt_conn (a b : ℚ × String × String)
    (hab : noteLt a b = false) (hba : noteLt b a = false) : a = b := by
  have hab' : ¬ noteLt a b = true := by simp [hab]
  have hba' : ¬ noteLt b a = true := by simp [hba]
  have h1 : a.1 = b.1 := by
    rcases lt_trichotomy a.1 b.1 with h | h | h
    · exact absurd ((noteLt_iff a b).mpr (Or.inl h)) hab'
    · exact h
    · exact absurd ((noteLt_iff b a).mpr (Or.inl h)) hba'
  have h2 : a.2.1 = b.2.1 := by
    rcases hc : listCharLt a.2.1.toList b.2.1.toList with _ | _
    · rcases hc' : listCharLt b.2.1.toList a.2.1.toList with _ | _
      · exact string_toList_inj (listCharLt_conn _ _ hc hc')
      · exact absurd ((noteLt_iff b a).mpr (Or.inr ⟨h1.symm, Or.inl hc'⟩)) hba'
    · exact absurd ((noteLt_iff a b).mpr (Or.inr ⟨h1, Or.inl hc⟩)) hab'
  have h3 : a.2.2 = b.2.2 := by
    rcases hv : listCharLt a.2.2.toList b.2.2.toList with _ | _
    · rcases hv' : listCharLt b.2.2.toList a.2.2.toList with _ | _
      · exact string_toList_inj (listCharLt_conn _ _ hv hv')
      · exact absurd ((noteLt_iff b a).mpr (Or.inr ⟨h1.symm, Or.inr ⟨h2.symm, hv'⟩⟩)) hba'
    · exact absurd ((noteLt_iff a b).mpr (Or.inr ⟨h1, Or.inr ⟨h2, hv⟩⟩)) hab'
  exact Prod.ext h1 (Prod.ext h2 h3)

theorem noteLe_total (a b : ℚ × String × String) (h : noteLe a b = false) :
    noteLe b a = true := by
  have h' : noteLt b a = true := by
    cases hx : noteLt b a
    · simp [noteLe, hx] at h
    · rfl
  simp only [noteLe, noteLt_asymm b a h']
  rfl

theorem noteLe_trans (a b c : ℚ × String × String)
    (hab : noteLe a b = true) (hbc : noteLe b c = true) : noteLe a c = true := by
  have hba : noteLt b a = false := by
    cases hx : noteLt b a
    · rfl
    · simp [noteLe, hx] at hab
  have hcb : noteLt c b = false := by
    cases hx : noteLt c b
    · rfl
    · simp [noteLe, hx] at hbc
  have hca : noteLt c a = false := by
    cases hx : noteLt c a
    · rfl
    · exfalso
      cases hbc2 : noteLt b c
      · have hbceq : b = c := noteLt_conn b c hbc2 hcb
        rw [hbceq] at hba
        exact bool_clash hx hba
      · exact bool_clash (noteLt_trans b c a hbc2 hx) hba
  simp only [noteLe, hca]
  rfl

theorem walk_cons (tbl : List (String × ℚ)) (bpm t lastBeat : ℚ) (e : BEvent)
    (es : List BEvent) :
    walk tbl bpm t lastBeat (e :: es) =
      (if e.channel = "01" ∨ e.channel = "03" ∨ e.channel = "08" then []
       else [((t + (e.beat - lastBeat) * (60 / bpm)) * 1000, e.channel, e.val)]) ++
        walk tbl (walkBpmStep tbl bpm e) (t + (e.beat - lastBeat) * (60 / bpm)) e.beat es := by
  by_cases h1 : e.channel = "01"
  · have h3 : e.channel ≠ "03" := by rw [h1]; decide
    have h8 : e.channel ≠ "08" := by rw [h1]; decide
    simp [walk, walkBpmStep, h1, h3, h8]
  · by_cases h3 : e.channel = "03"
    · have h8 : e.channel ≠ "08" := by rw [h3]; decide
      simp [walk, walkBpmStep, h1, h3, h8]
    · by_cases h8 : e.channel = "08"
      · simp [walk, walkBpmStep, h1, h3, h8]
      · simp [walk, walkBpmStep, h1, h3, h8]

theorem walkSt_cons (tbl : List (String × ℚ)) (bpm t lastBeat : ℚ) (e : BEvent)
    (es : List BEvent) :
    walkSt tbl (bpm, t, lastBeat) (e :: es) =
      walkSt tbl (walkBpmStep tbl bpm e, t + (e.beat - lastBeat) * (60 / bpm), e.beat) es :=
  rfl

theorem walk_append (tbl : List (String × ℚ)) :
    ∀ (l₁ l₂ : List BEvent) (bpm t lb : ℚ),
      walk tbl bpm t lb (l₁ ++ l₂) =
        walk tbl bpm t lb l₁ ++
          walk tbl (walkSt tbl (bpm, t, lb) l₁).1 (walkSt tbl (bpm, t, lb) l₁).2.1
            (walkSt tbl (bpm, t, lb) l₁).2.2 l₂ := by
  intro l₁
  induction l₁ with
  | nil => intro l₂ bpm t lb; simp [walk, walkSt]
  | cons e es ih =>
    intro l₂ bpm t lb
    have hst : walkSt tbl (bpm, t, lb) (e :: es) =
        walkSt tbl (walkBpmStep tbl bpm e, t + (e.beat - lb) * (60 / bpm), e.beat) es := rfl
    rw [List.cons_append, walk_cons, ih, walk_cons, hst, List.append_assoc]

theorem walk_eq_on_beatB (tbl : List (String × ℚ)) (B : ℚ) :
    ∀ (zs : List BEvent), (∀ z ∈ zs, z.beat = B) →
      ∀ s₁ s₂ : ℚ × ℚ × ℚ, timeAtBeat B s₁ = timeAtBeat B s₂ →
        walk tbl s₁.1 s₁.2.1 s₁.2.2 zs = walk tbl s₂.1 s₂.2.1 s₂.2.2 zs ∧
          timeAtBeat B (walkSt tbl s₁ zs) = timeAtBeat B (walkSt tbl s₂ zs) := by
  intro zs
  induction zs with
  | nil =>
    intro _ s₁ s₂ h
    exact ⟨rfl, by simpa [walkSt] using h⟩
  | cons z zs ih =>
    intro hz s₁ s₂ h
    have hzB : z.beat = B := hz z (List.mem_cons_self z zs)
    have hz' : ∀ z' ∈ zs, z'.beat = B := fun z' hm => hz z' (List.mem_cons_of_mem z hm)
    have hte : s₁.2.1 + (z.beat - s₁.2.2) * (60 / s₁.1)
        = s₂.2.1 + (z.beat - s₂.2.2) * (60 / s₂.1) := by
      rw [hzB]
      simpa [timeAtBeat] using h
    have hta : timeAtBeat B
          (walkBpmStep tbl s₁.1 z, s₁.2.1 + (z.beat - s₁.2.2) * (60 / s₁.1), z.beat)
        = timeAtBeat B
          (walkBpmStep tbl s₂.1 z, s₂.2.1 + (z.beat - s₂.2.2) * (60 / s₂.1), z.beat) := by
      simpa [timeAtBeat, hzB] using hte
    obtain ⟨hw, hst⟩ := ih hz'
      (walkBpmStep tbl s₁.1 z, s₁.2.1 + (z.beat - s₁.2.2) * (60 / s₁.1), z.beat)
      (walkBpmStep tbl s₂.1 z, s₂.2.1 + (z.beat - s₂.2.2) * (60 / s₂.1), z.beat) hta
    constructor
    · have hhead :
          (if z.channel = "01" ∨ z.channel = "03" ∨ z.channel = "08" then
             ([] : List (ℚ × String × String))
           else [((s₁.2.1 + (z.beat - s₁.2.2) * (60 / s₁.1)) * 1000, z.channel, z.val)]) =
          (if z.channel = "01" ∨ z.channel = "03" ∨ z.channel = "08" then []
           else [((s₂.2.1 + (z.beat - s₂.2.2) * (60 / s₂.1)) * 1000, z.channel, z.val)]) := by
        rw [hte]
      rw [walk_cons, walk_cons, hhead]
      exact congrArg _ (by simpa using hw)
    · exact hst

/-- C4: a direct tempo-change event at global beat `B` is never retroactive.
With `xs` the events processed before it, `zs` the events sharing beat `B`
that follow it, and `ws` the rest, the walk's output on the chart containing
the tempo event and on the chart without it share the prefix produced by
`xs ++ zs` (every event at beat `≤ B` gets an identical timestamp); the two
runs differ only in their tails after time `T`. The advance-then-apply order
of the walk (`delta_beats * (60 / current_bpm)` before the event's own
effect) is what makes the shared prefix identical. -/
theorem tempo_change_not_retroactive (tbl : List (String × ℚ)) (bpm₀ t₀ b₀ B : ℚ)
    (xs zs ws : List BEvent) (e : BEvent)
    (heb : e.beat = B) (hech : e.channel = "03") (hzs : ∀ z ∈ zs, z.beat = B) :
    ∃ tail₁ tail₂,
      walk tbl bpm₀ t₀ b₀ (xs ++ e :: (zs ++ ws)) =
        walk tbl bpm₀ t₀ b₀ (xs ++ zs) ++ tail₁ ∧
      walk tbl bpm₀ t₀ b₀ (xs ++ (zs ++ ws)) =
        walk tbl bpm₀ t₀ b₀ (xs ++ zs) ++ tail₂ := by
  have hcond : e.channel = "01" ∨ e.channel = "03" ∨ e.channel = "08" :=
    Or.inr (Or.inl hech)
  have hxsapp := walk_append tbl xs (e :: (zs ++ ws)) bpm₀ t₀ b₀
  have hcons := walk_cons tbl (walkSt tbl (bpm₀, t₀, b₀) xs).1
    (walkSt tbl (bpm₀, t₀, b₀) xs).2.1 (walkSt tbl (bpm₀, t₀, b₀) xs).2.2 e (zs ++ ws)
  rw [if_pos hcond, List.nil_append] at hcons
  have happ2 := walk_append tbl zs ws
    (walkBpmStep tbl (walkSt tbl (bpm₀, t₀, b₀) xs).1 e)
    ((walkSt tbl (bpm₀, t₀, b₀) xs).2.1 +
      (e.beat - (walkSt tbl (bpm₀, t₀, b₀) xs).2.2) * (60 / (walkSt tbl (bpm₀, t₀, b₀) xs).1))
    e.beat
  have hta : timeAtBeat B
        (walkBpmStep tbl (walkSt tbl (bpm₀, t₀, b₀) xs).1 e,
          (walkSt tbl (bpm₀, t₀, b₀) xs).2.1 +
            (e.beat - (walkSt tbl (bpm₀, t₀, b₀) xs).2.2) *
              (60 / (walkSt tbl (bpm₀, t₀, b₀) xs).1),
          e.beat)
      = timeAtBeat B (walkSt tbl (bpm₀, t₀, b₀) xs) := by
    simp [timeAtBeat, heb]
  have heq' :
      walk tbl (walkBpmStep tbl (walkSt tbl (bpm₀, t₀, b₀) xs).1 e)
        ((walkSt tbl (bpm₀, t₀, b₀) xs).2.1 +
          (e.beat - (walkSt tbl (bpm₀, t₀, b₀) xs).2.2) *
            (60 / (walkSt tbl (bpm₀, t₀, b₀) xs).1))
        e.beat zs
      = walk tbl (walkSt tbl (bpm₀, t₀, b₀) xs).1 (walkSt tbl (bpm₀, t₀, b₀) xs).2.1
          (walkSt tbl (bpm₀, t₀, b₀) xs).2.2 zs :=
    (walk_eq_on_beatB tbl B zs hzs
      (walkBpmStep tbl (walkSt tbl (bpm₀, t₀, b₀) xs).1 e,
        (walkSt tbl (bpm₀, t₀, b₀) xs).2.1 +
          (e.beat - (walkSt tbl (bpm₀, t₀, b₀) xs).2.2) *
            (60 / (walkSt tbl (bpm₀, t₀, b₀) xs).1),
        e.beat)
      (walkSt tbl (bpm₀, t₀, b₀) xs) hta).1
  have hback := walk_append tbl xs zs bpm₀ t₀ b₀
  have h1 := hxsapp
  rw [hcons, happ2, heq', ← List.append_assoc, ← hback] at h1
  have h2 := walk_append tbl (xs ++ zs) ws bpm₀ t₀ b₀
  rw [List.append_assoc] at h2
  exact ⟨_, _, h1, h2⟩

theorem mem_gridEvents (barNum : Nat) (channel : String) (notes : List (List Char))
    (ev : RawEvent) (h : ev ∈ gridEvents barNum channel notes) :
    ev.channel = channel ∧ ev.pos < ev.total ∧ ev.total = notes.length := by
  simp only [gridEvents, List.mem_filterMap] at h
  obtain ⟨p, hp, hpe⟩ := h
  split at hpe
  · have hlt : p.1 < notes.length := by
      rw [List.mem_enum_iff_getElem?] at hp
      exact (List.getElem?_eq_some_iff.mp hp).1
    injection hpe with h2
    subst h2
    exact ⟨rfl, hlt, rfl⟩
  · exact absurd hpe (by simp)

theorem withBpm_raw_events (st : DtxState) (o : Option ℚ) :
    (withBpm st o).raw_events = st.raw_events := by
  cases o <;> rfl

theorem withBpmChange_raw_events (st : DtxState) (id : String) (o : Option ℚ) :
    (withBpmChange st id o).raw_events = st.raw_events := by
  cases o <;> rfl

theorem withVolume_raw_events (st : DtxState) (id : String) (o : Option Int) :
    (withVolume st id o).raw_events = st.raw_events := by
  cases o <;> rfl

theorem withBarLength_raw_events (st : DtxState) (bar : Nat) (o : Option ℚ) :
    (withBarLength st bar o).raw_events = st.raw_events := by
  cases o <;> rfl

theorem mem_dispatchKey_raw (dir : String) (st : DtxState) (key value : List Char)
    (e : RawEvent) (h : e ∈ (dispatchKey dir st key value).raw_events) :
    e ∈ st.raw_events ∨
      (e.pos < e.total ∧ nonNoteChannels.contains e.channel = false ∧ e.channel ≠ "02") := by
  unfold dispatchKey at h
  simp only [apply_ite DtxState.raw_events, withBpm_raw_events, withBpmChange_raw_events,
    withVolume_raw_events, withBarLength_raw_events] at h
  by_cases c1 : key = "TITLE".toList
  · rw [if_pos c1] at h
    exact Or.inl h
  rw [if_neg c1] at h
  by_cases c2 : key = "ARTIST".toList
  · rw [if_pos c2] at h
    exact Or.inl h
  rw [if_neg c2] at h
  by_cases c3 : (decide (key = "BPM".toList) && !value.isEmpty) = true
  · rw [if_pos c3] at h
    exact Or.inl h
  rw [if_neg c3] at h
  by_cases c4 : ("WAV".toList.isPrefixOf key && !value.isEmpty) = true
  · rw [if_pos c4] at h
    exact Or.inl h
  rw [if_neg c4] at h
  by_cases c5 : (decide (key = "BGMWAV".toList) && !value.isEmpty) = true
  · rw [if_pos c5] at h
    exact Or.inl h
  rw [if_neg c5] at h
  by_cases c6 : ("BPM".toList.isPrefixOf key && decide (key.length > 3) && !value.isEmpty) = true
  · rw [if_pos c6] at h
    exact Or.inl h
  rw [if_neg c6] at h
  by_cases c7 : ("VOLUME".toList.isPrefixOf key && decide (key.length > 6) && !value.isEmpty) = true
  · rw [if_pos c7] at h
    exact Or.inl h
  rw [if_neg c7] at h
  by_cases c8 : isEventKey key = true
  · rw [if_pos c8] at h
    by_cases c9 : String.mk (key.drop 3) = "02"
    · rw [if_pos c9, ite_self] at h
      exact Or.inl h
    rw [if_neg c9] at h
    by_cases c11 : nonNoteChannels.contains (String.mk (key.drop 3)) = true
    · rw [if_pos c11] at h
      exact Or.inl h
    rw [if_neg c11] at h
    by_cases c12 : value.isEmpty = true
    · rw [if_pos c12] at h
      exact Or.inl h
    rw [if_neg c12] at h
    by_cases c13 : (chunks2 value).isEmpty = true
    · rw [if_pos c13] at h
      exact Or.inl h
    rw [if_neg c13] at h
    rcases List.mem_append.mp h with hm | hg
    · exact Or.inl hm
    obtain ⟨hch, hlt, _⟩ :=
      mem_gridEvents (digitsVal (key.take 3)) (String.mk (key.drop 3)) (chunks2 value) e hg
    refine Or.inr ⟨hlt, ?_, ?_⟩
    · rw [hch]
      simpa using c11
    · rw [hch]
      exact c9
  · rw [if_neg c8] at h
    exact Or.inl h

theorem mem_processLine_raw (dir : String) (st : DtxState) (rawLine : String)
    (e : RawEvent) (h : e ∈ (processLine dir st rawLine).raw_events) :
    e ∈ st.raw_events ∨
      (e.pos < e.total ∧ nonNoteChannels.contains e.channel = false ∧ e.channel ≠ "02") := by
  unfold processLine at h
  split at h
  · exact Or.inl h
  · split at h
    · exact mem_dispatchKey_raw _ _ _ _ _ h
    · exact Or.inl h

theorem mem_foldl_processLine (dir : String) :
    ∀ (lines : List String) (st : DtxState) (e : RawEvent),
      e ∈ (lines.foldl (processLine dir) st).raw_events →
      e ∈ st.raw_events ∨
        (e.pos < e.total ∧ nonNoteChannels.contains e.channel = false ∧ e.channel ≠ "02") := by
  intro lines
  induction lines with
  | nil => intro st e h; exact Or.inl h
  | cons l ls ih =>
    intro st e h
    rcases ih (processLine dir st l) e h with hm | hp
    · exact mem_processLine_raw dir st l e hm
    · exact Or.inr hp

theorem mem_dtxFirstPass_raw (dir : String) (lines : List String) (e : RawEvent)
    (h : e ∈ (dtxFirstPass dir lines).raw_events) :
    e.pos < e.total ∧ nonNoteChannels.contains e.channel = false ∧ e.channel ≠ "02" := by
  rcases mem_foldl_processLine dir lines initDtxState e h with hm | hp
  · exact absurd hm (by simp [initDtxState])
  · exact hp

theorem mem_walk (tbl : List (String × ℚ)) :
    ∀ (es : List BEvent) (bpm t lb : ℚ) (p : ℚ × String × String),
      p ∈ walk tbl bpm t lb es →
      (∃ ev ∈ es, p.2.1 = ev.channel) ∧ p.2.1 ≠ "01" ∧ p.2.1 ≠ "03" ∧ p.2.1 ≠ "08" := by
  intro es
  induction es with
  | nil => intro bpm t lb p h; simp [walk] at h
  | cons e es ih =>
    intro bpm t lb p h
    rw [walk_cons] at h
    rcases List.mem_append.mp h with hh | ht
    · split at hh
      · simp at hh
      · rename_i hcond
        push_neg at hcond
        simp only [List.mem_singleton] at hh
        subst hh
        exact ⟨⟨e, List.mem_cons_self e es, rfl⟩, hcond.1, hcond.2.1, hcond.2.2⟩
    · obtain ⟨⟨ev, hev, hc⟩, h1, h3, h8⟩ := ih _ _ _ p ht
      exact ⟨⟨ev, List.mem_cons_of_mem e hev, hc⟩, h1, h3, h8⟩

theorem mem_annotate (blc : List (Nat × ℚ)) (es : List RawEvent) (ev : BEvent)
    (h : ev ∈ annotate blc es) : ∃ re ∈ es, ev.channel = re.channel := by
  simp only [annotate, List.mem_map] at h
  obtain ⟨re, hre, hev⟩ := h
  exact ⟨re, hre, by rw [← hev]⟩

/-- C8: every `RawEvent` the parser produces has its slot index strictly
below its bar grid's total slot count, the total slot count is at least 1,
and in particular the rational denominator `total_pos` used by the timing
resolver's fractional-position division is nonzero. -/
theorem raw_event_slot_index_lt_total (dir : String) (lines : List String)
    (e : RawEvent) (h : e ∈ (dtxFirstPass dir lines).raw_events) :
    e.pos < e.total ∧ 1 ≤ e.total ∧ ((e.total : ℚ) ≠ 0) := by
  obtain ⟨hlt, _, _⟩ := mem_dtxFirstPass_raw dir lines e h
  have hpos : 0 < e.total := lt_of_le_of_lt (Nat.zero_le _) hlt
  exact ⟨hlt, hpos, by exact_mod_cast Nat.pos_iff_ne_zero.mp hpos⟩

/-- C8 witness: the single event of the one-line chart `#00011: 01` has slot
index 0, total slot count 1. -/
theorem raw_event_slot_index_lt_total_witness :
    ({ bar := 0, channel := "11", pos := 0, total := 1, val := "01" } : RawEvent).pos <
        ({ bar := 0, channel := "11", pos := 0, total := 1, val := "01" } : RawEvent).total ∧
      1 ≤ ({ bar := 0, channel := "11", pos := 0, total := 1, val := "01" } : RawEvent).total ∧
      ((({ bar := 0, channel := "11", pos := 0, total := 1, val := "01" } : RawEvent).total : ℚ) ≠ 0) :=
  raw_event_slot_index_lt_total "." ["#00011: 01"]
    { bar := 0, channel := "11", pos := 0, total := 1, val := "01" } (by decide)

/-- C6: every timed note the full pipeline emits has a channel outside the
non-audible set `NON_NOTE_CHANNELS` and distinct from all four control
channels: background marker `01`, bar length `02`, direct tempo `03`,
indexed tempo `08`. -/
theorem output_channel_not_control (dir : String) (lines : List String)
    (p : ℚ × String × String) (h : p ∈ timedNotesOf dir lines) :
    nonNoteChannels.contains p.2.1 = false ∧
      p.2.1 ≠ "01" ∧ p.2.1 ≠ "02" ∧ p.2.1 ≠ "03" ∧ p.2.1 ≠ "08" := by
  have hw : p ∈ walkNotesOf dir lines :=
    (mem_stableSort noteLe (walkNotesOf dir lines) p).mp h
  obtain ⟨⟨ev, hev, hc⟩, h1, h3, h8⟩ :=
    mem_walk (dtxFirstPass dir lines).bpm_changes _ _ _ _ p hw
  have hev' : ev ∈ annotate (dtxFirstPass dir lines).bar_length_changes
      (dtxFirstPass dir lines).raw_events :=
    (mem_stableSort _ _ ev).mp hev
  obtain ⟨re, hre, hrec⟩ := mem_annotate _ _ ev hev'
  obtain ⟨_, hnn, h02⟩ := mem_dtxFirstPass_raw dir lines re hre
  rw [hc, hrec]
  exact ⟨hnn, by rw [← hrec, ← hc]; exact h1, h02, by rw [← hrec, ← hc]; exact h3,
    by rw [← hrec, ← hc]; exact h8⟩

unseal Rat.add Rat.sub Rat.mul Rat.inv in
/-- C6 witness: the single note of the chart `#00011: 01` lands on channel
`11`, outside every excluded set. -/
theorem output_channel_not_control_witness :
    nonNoteChannels.contains ((0 : ℚ), "11", "01").2.1 = false ∧
      ((0 : ℚ), "11", "01").2.1 ≠ "01" ∧ ((0 : ℚ), "11", "01").2.1 ≠ "02" ∧
      ((0 : ℚ), "11", "01").2.1 ≠ "03" ∧ ((0 : ℚ), "11", "01").2.1 ≠ "08" :=
  output_channel_not_control "." ["#00011: 01"] ((0 : ℚ), "11", "01") (by decide)

unseal Rat.add Rat.sub Rat.mul Rat.inv in
/-- C5: the one-bar chart with a single channel line of four evenly spaced
tokens at the default 120 BPM resolves to notes at 0, 500, 1000 and 1500
milliseconds. -/
theorem four_even_tokens_at_120bpm :
    timedNotesOf "." ["#00011: 01020304"] =
      [(0, "11", "01"), (500, "11", "02"), (1000, "11", "03"), (1500, "11", "04")] := by
  decide

unseal Rat.add Rat.sub Rat.mul Rat.inv in
/-- C1 counterexample: in the chart `#00012: 01` then `#00011: 01` both
notes fall on time 0; the walk emits them in first-parsed order (channel
`12` then `11`), but the final `timed_notes.sort()` compares whole
`(time, channel, wav)` tuples and reorders them to `11` before `12`, so the
final sort is not a stable sort by ascending time only. -/
theorem equal_time_note_order_counterexample :
    walkNotesOf "." ["#00012: 01", "#00011: 01"] = [(0, "12", "01"), (0, "11", "01")] ∧
    timedNotesOf "." ["#00012: 01", "#00011: 01"] = [(0, "11", "01"), (0, "12", "01")] ∧
    timedNotesOf "." ["#00012: 01", "#00011: 01"] ≠
      [(0, "12", "01"), (0, "11", "01")] := by
  refine ⟨by decide, by decide, by decide⟩

/-- C1 amended: the final sort after the timing walk orders the emitted
notes by the whole `(time, channel, sample)` tuple; the output is a
permutation of the walk's emission that is sorted under `noteLe`, so notes
sharing a timestamp appear in ascending (channel, sample-identifier) order,
not in first-parsed order. -/
theorem final_sort_is_by_full_tuple (dir : String) (lines : List String) :
    (timedNotesOf dir lines).Pairwise (fun a b => noteLe a b = true) ∧
      (timedNotesOf dir lines).Perm (walkNotesOf dir lines) :=
  ⟨pairwise_stableSort noteLe noteLe_total noteLe_trans _,
    stableSort_perm noteLe _⟩

/-- C4 witness: a chart of one note at beat 0, a direct tempo change `F0` at
beat 1, one note sharing beat 1, and one note at beat 2. -/
theorem tempo_change_not_retroactive_witness :
    ∃ tail₁ tail₂,
      walk [] 120 0 0
          ([{ beat := 0, channel := "11", val := "01" }] ++
            ({ beat := 1, channel := "03", val := "F0" } : BEvent) ::
              ([{ beat := 1, channel := "12", val := "02" }] ++
                [{ beat := 2, channel := "13", val := "03" }])) =
        walk [] 120 0 0
          ([{ beat := 0, channel := "11", val := "01" }] ++
            [{ beat := 1, channel := "12", val := "02" }]) ++ tail₁ ∧
      walk [] 120 0 0
          ([{ beat := 0, channel := "11", val := "01" }] ++
            ([{ beat := 1, channel := "12", val := "02" }] ++
              [{ beat := 2, channel := "13", val := "03" }])) =
        walk [] 120 0 0
          ([{ beat := 0, channel := "11", val := "01" }] ++
            [{ beat := 1, channel := "12", val := "02" }]) ++ tail₂ :=
  tempo_change_not_retroactive [] 120 0 0 1
    [{ beat := 0, channel := "11", val := "01" }]
    [{ beat := 1, channel := "12", val := "02" }]
    [{ beat := 2, channel := "13", val := "03" }]
    { beat := 1, channel := "03", val := "F0" } rfl rfl (by decide)

theorem encStep_foldl_spec :
    ∀ (cands : List (Option (List String))) (acc : Option (List String) × Nat),
      ((cands.foldl encStep acc) = acc ∧
        ∀ ls, some ls ∈ cands → countCmdLines ls ≤ acc.2) ∨
      (∃ ls, some ls ∈ cands ∧ (cands.foldl encStep acc) = (some ls, countCmdLines ls) ∧
        acc.2 < countCmdLines ls ∧
        ∀ ls', some ls' ∈ cands → countCmdLines ls' ≤ countCmdLines ls) := by
  intro cands
  induction cands with
  | nil =>
    intro acc
    exact Or.inl ⟨rfl, by simp⟩
  | cons c cs ih =>
    intro acc
    cases c with
    | none =>
      have hred : ((none :: cs).foldl encStep acc) = cs.foldl encStep acc := by
        simp [encStep]
      rcases ih acc with ⟨heq, hle⟩ | ⟨ls, hm, heq, hlt, hmax⟩
      · refine Or.inl ⟨hred.trans heq, ?_⟩
        intro ls hls
        rcases List.mem_cons.mp hls with h0 | h0
        · exact absurd h0 (by simp)
        · exact hle ls h0
      · refine Or.inr ⟨ls, List.mem_cons_of_mem _ hm, hred.trans heq, hlt, ?_⟩
        intro ls' hls'
        rcases List.mem_cons.mp hls' with h0 | h0
        · exact absurd h0 (by simp)
        · exact hmax ls' h0
    | some ls₀ =>
      have hred : ((some ls₀ :: cs).foldl encStep acc) =
          cs.foldl encStep
            (if acc.2 < countCmdLines ls₀ then (some ls₀, countCmdLines ls₀) else acc) := by
        simp [encStep]
      by_cases hlt0 : acc.2 < countCmdLines ls₀
      · rw [if_pos hlt0] at hred
        rcases ih (some ls₀, countCmdLines ls₀) with ⟨heq, hle⟩ | ⟨ls₁, hm, heq, hlt, hmax⟩
        · refine Or.inr ⟨ls₀, List.mem_cons_self _ _, hred.trans heq, hlt0, ?_⟩
          intro ls' hls'
          rcases List.mem_cons.mp hls' with h0 | h0
          · injection h0 with h0
            rw [h0]
          · exact hle ls' h0
        · have hlt' : countCmdLines ls₀ < countCmdLines ls₁ := hlt
          refine Or.inr ⟨ls₁, List.mem_cons_of_mem _ hm, hred.trans heq,
            lt_trans hlt0 hlt', ?_⟩
          intro ls' hls'
          rcases List.mem_cons.mp hls' with h0 | h0
          · injection h0 with h0
            rw [h0]
            exact le_of_lt hlt'
          · exact hmax ls' h0
      · rw [if_neg hlt0] at hred
        have hle0 : countCmdLines ls₀ ≤ acc.2 := Nat.le_of_not_lt hlt0
        rcases ih acc with ⟨heq, hle⟩ | ⟨ls₁, hm, heq, hlt, hmax⟩
        · refine Or.inl ⟨hred.trans heq, ?_⟩
          intro ls' hls'
          rcases List.mem_cons.mp hls' with h0 | h0
          · injection h0 with h0
            rw [h0]
            exact hle0
          · exact hle ls' h0
        · refine Or.inr ⟨ls₁, List.mem_cons_of_mem _ hm, hred.trans heq, hlt, ?_⟩
          intro ls' hls'
          rcases List.mem_cons.mp hls' with h0 | h0
          · injection h0 with h0
            rw [h0]
            exact le_of_lt (lt_of_le_of_lt hle0 hlt)
          · exact hmax ls' h0

/-- C3 amended: the encoding resolver reports its fatal read error exactly
when every candidate either fails to decode or decodes to lines with zero
`#`-sentinel lines (not merely when no candidate decodes); on success it
returns a decodable candidate of maximal sentinel-line count, and that
count is at least 1. -/
theorem resolveEncoding_spec (cands : List (Option (List String))) :
    (resolveEncoding cands = none ↔ ∀ ls, some ls ∈ cands → countCmdLines ls = 0) ∧
    (∀ c, resolveEncoding cands = some c →
      some c ∈ cands ∧ 1 ≤ countCmdLines c ∧
        ∀ ls, some ls ∈ cands → countCmdLines ls ≤ countCmdLines c) := by
  rcases encStep_foldl_spec cands (none, 0) with ⟨heq, hle⟩ | ⟨ls, hm, heq, hlt, hmax⟩
  · constructor
    · constructor
      · intro _ ls hls
        exact Nat.le_zero.mp (hle ls hls)
      · intro _
        simp [resolveEncoding, heq]
    · intro c hc
      rw [resolveEncoding, heq] at hc
      exact absurd hc (by simp)
  · have hpos : 0 < countCmdLines ls := hlt
    constructor
    · constructor
      · intro h0
        rw [resolveEncoding, heq] at h0
        exact absurd h0 (by simp)
      · intro hall
        exact absurd (hall ls hm) (Nat.pos_iff_ne_zero.mp hpos)
    · intro c hc
      rw [resolveEncoding, heq] at hc
      injection hc with hc
      rw [← hc]
      exact ⟨hm, hpos, hmax⟩

/-- C3 witness: the resolver applied to the single decodable candidate
`["hello"]` (no sentinel lines) gives the error result, whose count is
necessarily 0. -/
theorem resolveEncoding_spec_witness : countCmdLines ["hello"] = 0 :=
  (resolveEncoding_spec [some ["hello"]]).1.mp (by decide) ["hello"] (by simp)

/-- C3 counterexample: a file that decodes under a candidate encoding but
contains no `#`-sentinel line still makes the resolver return the fatal
read-error result, so "fails iff no candidate decodes at all" is false:
here the candidate decodes, yet the result is the error value. -/
theorem resolveEncoding_error_despite_decodable :
    resolveEncoding [some ["hello"]] = none ∧
      some ["hello"] ≠ (none : Option (List String)) :=
  ⟨by decide, by decide⟩

/-- C7 counterexample: the directive `#WAV: kick.wav`, whose key is the bare
prefix `WAV` with an empty identifier, does register a sample-table entry —
under the empty identifier — contradicting the claim that no entry is
registered. -/
theorem bare_wav_key_registers_counterexample :
    (dtxFirstPass "." ["#WAV: kick.wav"]).wav_files = [("", "./kick.wav")] ∧
      ((dtxFirstPass "." ["#WAV: kick.wav"]).wav_files.lookup "").isSome = true :=
  ⟨by decide, by decide⟩

/-- C7 amended: a directive whose key begins with `WAV` and whose value is
non-empty registers a sample-table entry keyed by the (possibly empty)
remainder of the key after the prefix; the path has its backslashes
normalized to slashes and is resolved against the chart's directory. -/
theorem wav_key_registers_sample (dir : String) (st : DtxState) (id value : List Char)
    (hv : value ≠ []) :
    (dispatchKey dir st ('W' :: 'A' :: 'V' :: id) value).wav_files =
      dinsert st.wav_files (String.mk id) (joinPath dir (String.mk (normSlash value))) := by
  have hval : (!value.isEmpty) = true := by
    cases value
    · exact absurd rfl hv
    · rfl
  have hT : ¬('W' :: 'A' :: 'V' :: id = "TITLE".toList) := fun hc => by
    rw [show "TITLE".toList = ['T', 'I', 'T', 'L', 'E'] from rfl] at hc
    injection hc with h1 _
    exact absurd h1 (by decide)
  have hA : ¬('W' :: 'A' :: 'V' :: id = "ARTIST".toList) := fun hc => by
    rw [show "ARTIST".toList = ['A', 'R', 'T', 'I', 'S', 'T'] from rfl] at hc
    injection hc with h1 _
    exact absurd h1 (by decide)
  have hB : ¬('W' :: 'A' :: 'V' :: id = "BPM".toList) := fun hc => by
    rw [show "BPM".toList = ['B', 'P', 'M'] from rfl] at hc
    injection hc with h1 _
    exact absurd h1 (by decide)
  have c3 : ¬((decide ('W' :: 'A' :: 'V' :: id = "BPM".toList) && !value.isEmpty) = true) := by
    simp [hB]
  have c4 : ("WAV".toList.isPrefixOf ('W' :: 'A' :: 'V' :: id) && !value.isEmpty) = true := by
    rw [hval]
    rw [show "WAV".toList = ['W', 'A', 'V'] from rfl]
    simp [List.isPrefixOf]
  unfold dispatchKey
  rw [if_neg hT, if_neg hA, if_neg c3, if_pos c4]
  rfl

/-- C7 witness: `#WAV01`-style key with identifier `01` and value
`kick.wav`. -/
theorem wav_key_registers_sample_witness :
    (dispatchKey "." initDtxState ('W' :: 'A' :: 'V' :: "01".toList)
        "kick.wav".toList).wav_files =
      dinsert initDtxState.wav_files (String.mk "01".toList)
        (joinPath "." (String.mk (normSlash "kick.wav".toList))) :=
  wav_key_registers_sample "." initDtxState "01".toList "kick.wav".toList (by decide)

/-- C2: on the demotion tick (audio-driven clock, music no longer busy),
the code re-anchors `start_ticks` to `now - song_duration_ms`, so the
current time computed at that very tick is always `song_duration_ms` — the
song duration, not the last known audio position. The in-source comment
says the intent is to resync to the BGM's last known position; whenever
that position differs from the song duration, the master clock jumps at
the seam. -/
theorem clock_demotion_time_is_song_duration (s : ClockState)
    (nowTicks musicPosMs songDurationMs : ℚ) (h : s.clock_is_audio_driven = true) :
    (updateClock s nowTicks false musicPosMs songDurationMs).2 = songDurationMs := by
  simp [updateClock, h]

/-- C2 witness: a state whose last audio-driven time was 1000 ms but whose
song duration is 5000 ms computes current time 5000 ms at demotion. -/
theorem clock_demotion_witness :
    (updateClock { clock_is_audio_driven := true, start_ticks := 0, time_offset_ms := 0 }
        2000 false 1000 5000).2 = 5000 :=
  clock_demotion_time_is_song_duration
    { clock_is_audio_driven := true, start_ticks := 0, time_offset_ms := 0 } 2000 1000 5000 rfl

theorem seekIndex_eq_fireCount (notes : List (ℚ × String × String)) (T : ℚ)
    (h : ∀ n ∈ notes, n.1 ≠ T) : seekIndex notes T = fireCount T notes := by
  induction notes with
  | nil => rfl
  | cons n ns ih =>
    have hn : n.1 ≠ T := h n (List.mem_cons_self n ns)
    have h' : ∀ m ∈ ns, m.1 ≠ T := fun m hm => h m (List.mem_cons_of_mem n hm)
    rcases lt_trichotomy n.1 T with hlt | heq | hgt
    · have h1 : (decide (n.1 ≥ T)) = false := by simp [not_le.mpr hlt]
      have h2 : n.1 ≤ T := le_of_lt hlt
      simp only [seekIndex, fireCount, List.findIdx_cons, h1, cond_false, if_pos h2]
      have := ih h'
      simp only [seekIndex] at this
      rw [this]
    · exact absurd heq hn
    · have h1 : (decide (n.1 ≥ T)) = true := by simp [le_of_lt hgt]
      have h2 : ¬(n.1 ≤ T) := not_le.mpr hgt
      simp only [seekIndex, fireCount, List.findIdx_cons, h1, cond_true, if_neg h2]

/-- C9 amended: two consecutive seeks — to any time `X`, then back to the
pre-seek time `T` — leave the note cursor at the first index with note time
`≥ T`, and this agrees with the never-sought cursor (the count of notes the
dispatch loop has fired by time `T`) whenever no note lies exactly at time
`T`. Both voice-tracking tables are cleared by the seek, as the claim's
"modulo voice and choke tables" proviso says. A note exactly at the
pre-seek time is the exception recorded in the counterexample. -/
theorem seek_roundtrip_cursor (notes : List (ℚ × String × String)) (s : SchedState)
    (T X : ℚ) (h : ∀ n ∈ notes, n.1 ≠ T) :
    (applySeek notes (applySeek notes s X) T).note_index = fireCount T notes := by
  simp only [applySeek]
  exact seekIndex_eq_fireCount notes T h

/-- C9 witness: the chart with one note at 1000 ms, seeking to 3000 ms and
back to 500 ms (a time hitting no note exactly). -/
theorem seek_roundtrip_cursor_witness :
    (applySeek [((1000 : ℚ), "11", "01")]
        (applySeek [((1000 : ℚ), "11", "01")]
          { note_index := 1, active_poly_sounds := [], active_choke_sounds := [] } 3000)
        500).note_index = fireCount 500 [((1000 : ℚ), "11", "01")] :=
  seek_roundtrip_cursor [((1000 : ℚ), "11", "01")]
    { note_index := 1, active_poly_sounds := [], active_choke_sounds := [] } 500 3000 (by decide)

/-- C9 counterexample: with a single note exactly at the pre-seek time
1000 ms, the never-sought cursor is 1 (the dispatch loop fires notes with
time `≤` current time), but seeking away and back to 1000 ms re-points the
cursor to 0 (the first note with time `≥` 1000), so the round trip does not
restore the cursor. -/
theorem seek_roundtrip_counterexample :
    fireCount 1000 [((1000 : ℚ), "11", "01")] = 1 ∧
    (applySeek [((1000 : ℚ), "11", "01")]
        (applySeek [((1000 : ℚ), "11", "01")]
          { note_index := 1, active_poly_sounds := [], active_choke_sounds := [] } 3000)
        1000).note_index = 0 ∧
    (0 : Nat) ≠ 1 :=
  ⟨by decide, by decide, by decide⟩

theorem lookup_dinsert_ne {ν : Type} (m : List (String × ν)) (k k' : String) (v : ν)
    (h : k' ≠ k) : (dinsert m k v).lookup k' = m.lookup k' := by
  induction m with
  | nil =>
    simp only [dinsert, List.lookup]
    rw [show (k' == k) = false from beq_eq_false_iff_ne.mpr h]
  | cons p ps ih =>
    simp only [dinsert]
    split
    · rename_i hpk
      simp only [List.lookup]
      rw [show (k' == k) = false from beq_eq_false_iff_ne.mpr h,
        show (k' == p.1) = false from beq_eq_false_iff_ne.mpr (hpk ▸ h)]
    · simp only [List.lookup]
      cases hpe : k' == p.1
      · exact ih
      · rfl

theorem load_sounds_foldl_lookup (b : String) (fileOk : String → Bool) :
    ∀ (wavFiles acc : List (String × String)), acc.lookup b = none →
      (wavFiles.foldl
        (fun sounds idp =>
          if !fileOk idp.2 then sounds
          else if some idp.1 = some b then sounds
          else dinsert sounds idp.1 idp.2) acc).lookup b = none := by
  intro wavFiles
  induction wavFiles with
  | nil => intro acc h; exact h
  | cons p ps ih =>
    intro acc h
    simp only [List.foldl_cons]
    apply ih
    by_cases hf : (!fileOk p.2) = true
    · rw [if_pos hf]
      exact h
    · rw [if_neg hf]
      by_cases hb : some p.1 = some b
      · rw [if_pos hb]
        exact h
      · rw [if_neg hb]
        rw [lookup_dinsert_ne acc p.1 b p.2 (fun hc => hb (by rw [hc]))]
        exact h

theorem load_sounds_excludes_bgm (wavFiles : List (String × String)) (b : String)
    (fileOk : String → Bool) :
    (load_sounds wavFiles (some b) fileOk).lookup b = none := by
  unfold load_sounds
  exact load_sounds_foldl_lookup b fileOk wavFiles [] rfl

theorem mem_fireDue (sounds : List (String × String)) (now : ℚ) :
    ∀ (notes : List (ℚ × String × String)) (p : ℚ × String × String),
      p ∈ fireDue sounds now notes → (sounds.lookup p.2.2).isSome = true := by
  intro notes
  induction notes with
  | nil => intro p h; simp [fireDue] at h
  | cons n ns ih =>
    intro p h
    unfold fireDue at h
    split at h
    · rcases List.mem_append.mp h with hh | ht
      · split at hh
        · rename_i hs
          simp only [List.mem_singleton] at hh
          subst hh
          exact hs
        · simp at hh
      · exact ih p ht
    · simp at h

/-- C10: when a background-track sample identifier is in effect (set by the
explicit directive or the `01` convention), `load_sounds` leaves it out of
the effect-sound table, so its lookup fails; consequently every note
dispatched as due and fired carries a different sample identifier — a timed
note of the background sample is passed over silently even when its file
exists. -/
theorem bgm_sample_never_fired (st : DtxState) (b : String) (fileOk : String → Bool)
    (hb : finalBgmWavId st = some b) (now : ℚ) (notes : List (ℚ × String × String))
    (p : ℚ × String × String)
    (hp : p ∈ fireDue (load_sounds st.wav_files (finalBgmWavId st) fileOk) now notes) :
    (load_sounds st.wav_files (finalBgmWavId st) fileOk).lookup b = none ∧ p.2.2 ≠ b := by
  rw [hb] at hp ⊢
  have hnone := load_sounds_excludes_bgm st.wav_files b fileOk
  refine ⟨hnone, ?_⟩
  intro hc
  have hsome := mem_fireDue _ now notes p hp
  rw [hc, hnone] at hsome
  simp at hsome

/-- C10 witness: sample table with `01` (the conventional background track)
and `02`; the note using `02` fires, and `01` is absent from the
effect-sound table. -/
theorem bgm_sample_never_fired_witness :
    (load_sounds
        ({ title := "t", artist := "a", bpm := 120,
           wav_files := [("01", "x.wav"), ("02", "y.wav")], bpm_changes := [],
           bar_length_changes := [], wav_volumes := [], bgm_wav_id := none,
           raw_events := [] } : DtxState).wav_files
        (finalBgmWavId
          { title := "t", artist := "a", bpm := 120,
            wav_files := [("01", "x.wav"), ("02", "y.wav")], bpm_changes := [],
            bar_length_changes := [], wav_volumes := [], bgm_wav_id := none,
            raw_events := [] })
        alwaysOk).lookup "01" = none ∧
      ((0 : ℚ), "11", "02").2.2 ≠ "01" :=
  bgm_sample_never_fired
    { title := "t", artist := "a", bpm := 120,
      wav_files := [("01", "x.wav"), ("02", "y.wav")], bpm_changes := [],
      bar_length_changes := [], wav_volumes := [], bgm_wav_id := none,
      raw_events := [] }
    "01" alwaysOk (by decide) 0 [((0 : ℚ), "11", "02")] ((0 : ℚ), "11", "02") (by decide)

end DtxPlayer
